import Mathlib

/-!
Shallow embedding of the DNS wire codec of the repository
(custom-dns-server): the validated domain-name value (`Qname`,
src/packet/qname.rs), the bounds-checked message buffer and the
name-decompression routine (`ByteMessageBuffer`,
src/parse/byte_message_buffer.rs), the header codec
(src/packet/header.rs), the record codec (src/packet/record.rs) and the
message selectors (src/parse/dns_packet.rs).

Rust strings are modelled as lists of bytes (`List Nat`, each < 256 on
the wire); `String::from_utf8_lossy(..).to_lowercase()` is modelled by
the ASCII byte lowering `lowerBytes`, which is exact on the ASCII
fragment the data model restricts labels to.  Machine-integer casts are
kept explicit as `% 256` / `% 65536`.  Fallible code returns `Except` /
`Option`; a Rust panic (the `unwrap` in `Qname::serialized_size`) is
`none`.
-/

deriving instance DecidableEq for Except

namespace DnsSrv

/-- ASCII lowercasing of a single byte, the byte-level content of
Rust's `to_lowercase` on ASCII data (src/parse/byte_message_buffer.rs
line 130). -/
def toLowerByte (b : Nat) : Nat :=
  if 65 ≤ b ∧ b ≤ 90 then b + 32 else b

/-- Lowercase a whole label (byte string). -/
def lowerBytes (s : List Nat) : List Nat := s.map toLowerByte

/-! ### Qname (src/packet/qname.rs) -/

/-- Constant MAX_QNAME_LEN from src/packet/qname.rs line 8. -/
def MAX_QNAME_LEN : Nat := 255

/-- Constant MAX_LABEL_LEN from src/packet/qname.rs line 9. -/
def MAX_LABEL_LEN : Nat := 63

/-- Error type QnameError from src/packet/qname.rs. -/
inductive QnameError
  | BadLabelLen (n : Nat)
  | BadTotalLen
deriving DecidableEq

/-- The Qname value: a sequence of labels, each a byte string
(src/packet/qname.rs lines 25-28, `inner: Vec<String>`). -/
structure Qname where
  inner : List (List Nat)
deriving DecidableEq

/-- Constructor `impl TryFrom<Vec<String>> for Qname`
(src/packet/qname.rs lines 50-72): each label must have length
< MAX_LABEL_LEN, and the sum of (label length + 1) plus 1 must not
exceed MAX_QNAME_LEN. -/
def Qname.tryFromVec (value : List (List Nat)) : Except QnameError Qname := do
  let checked ← value.mapM (fun x =>
    if x.length < MAX_LABEL_LEN then Except.ok x
    else Except.error (QnameError.BadLabelLen x.length))
  let sum : Nat := (checked.map (fun x => x.length + 1)).sum
  if sum + 1 > MAX_QNAME_LEN then
    Except.error QnameError.BadTotalLen
  else
    Except.ok ⟨checked⟩

/-- Rust's `str::split('.')`: split a byte string on the dot byte 46,
keeping empty segments (so the result is always nonempty). -/
def splitOnDot : List Nat → List (List Nat)
  | [] => [[]]
  | b :: rest =>
    match splitOnDot rest with
    | [] => [[]]
    | cur :: done =>
      if b = 46 then [] :: cur :: done else (b :: cur) :: done

/-- Helper `Qname::split_strings` (src/packet/qname.rs lines 81-96):
reject raw strings longer than MAX_QNAME_LEN, split on dots, and check
each label's length < MAX_LABEL_LEN. -/
def Qname.splitStrings (value : List Nat) : Except QnameError (List (List Nat)) :=
  if value.length > MAX_QNAME_LEN then
    Except.error QnameError.BadTotalLen
  else
    (splitOnDot value).mapM (fun x =>
      if x.length < MAX_LABEL_LEN then Except.ok x
      else Except.error (QnameError.BadLabelLen x.length))

/-- Constructor `impl TryFrom<&str> for Qname` (src/packet/qname.rs
lines 40-48); the `TryFrom<String>` path at lines 30-38 is
identical. -/
def Qname.tryFromStr (value : List Nat) : Except QnameError Qname :=
  (Qname.splitStrings value).map (fun l => ⟨l⟩)

/-- Serialization `Qname::serialize` (src/packet/qname.rs lines
98-107): for each label a length octet (`x.len() as u8`, hence the
explicit `% 256`) followed by the label bytes, then a zero octet. -/
def Qname.serializeBytes (q : Qname) : List Nat :=
  (q.inner.flatMap (fun x => (x.length % 256) :: x)) ++ [0]

/-- Helper `Qname::serialized_size` (src/packet/qname.rs lines
110-116): serialize into a `[0u8; MAX_QNAME_LEN]` scratch buffer and
unwrap; the write fails (and the unwrap panics, modelled `none`) when
the serialized form does not fit in MAX_QNAME_LEN bytes. -/
def Qname.serializedSize? (q : Qname) : Option Nat :=
  let bs := q.serializeBytes
  if bs.length ≤ MAX_QNAME_LEN then some bs.length else none

/-- Suffix test `Qname::ends_with` (src/packet/qname.rs lines
118-120): zip the two reversed label sequences and require byte
equality on every paired label (`zip` stops at the shorter
sequence). -/
def Qname.endsWith (a other : Qname) : Bool :=
  (a.inner.reverse.zip other.inner.reverse).all (fun p => p.1 == p.2)

/-! ### ByteMessageBuffer (src/parse/byte_message_buffer.rs) -/

/-- Constant MAX_JUMPS from src/parse/byte_message_buffer.rs line 9. -/
def MAX_JUMPS : Nat := 5

/-- The parse-error kinds reachable from the buffer routines:
`ByteBufferError::{BoundError, JumpLimitExceeded}` and the
`ParseError::Qname` wrapping applied by `read_qname`
(src/parse/byte_message_buffer.rs lines 11-19 and 141-145). -/
inductive ParseErr
  | Bound (buf_len index : Nat)
  | JumpLimitExceeded
  | Qname (e : QnameError)
deriving DecidableEq

/-- Bounds-checked single-byte read `ByteMessageBuffer::peek_u8`
(src/parse/byte_message_buffer.rs lines 43-51): error when
`pos >= buf.len()`. -/
def peekU8 (buf : List Nat) (pos : Nat) : Except ParseErr Nat :=
  if pos ≥ buf.length then
    Except.error (ParseErr.Bound buf.length pos)
  else
    Except.ok (buf.getD pos 0)

/-- Bounds-checked slice read `ByteMessageBuffer::peek_range`
(src/parse/byte_message_buffer.rs lines 54-62): error when
`start + len >= buf.len()`, otherwise the bytes
`buf[start..start+len]`. -/
def peekRange (buf : List Nat) (start len : Nat) : Except ParseErr (List Nat) :=
  if start + len ≥ buf.length then
    Except.error (ParseErr.Bound buf.length (start + len))
  else
    Except.ok ((buf.drop start).take len)

/-- The loop body of `ByteMessageBuffer::read_qname`
(src/parse/byte_message_buffer.rs lines 75-139), with the loop state
(`pos`, `jumps_performed`, `consumed`, `qnames`) passed explicitly.
On exit it returns the final `consumed`, the collected labels, and the
final value of `jumps_performed` (the latter is dropped by
`readQname`; keeping it lets theorems speak about the number of
pointer follows). -/
def readQnameLoop (buf : List Nat) (pos jumps_performed consumed : Nat)
    (qnames : List (List Nat)) :
    Except ParseErr (Nat × List (List Nat) × Nat) :=
  if jumps_performed > MAX_JUMPS then
    Except.error ParseErr.JumpLimitExceeded
  else
    match h1 : peekU8 buf pos with
    | Except.error e => Except.error e
    | Except.ok len =>
      if len &&& 0xC0 = 0xC0 then
        match peekU8 buf (pos + 1) with
        | Except.error e => Except.error e
        | Except.ok b2 =>
          let offset := ((len ^^^ 0xC0) <<< 8) ||| b2
          readQnameLoop buf offset (jumps_performed + 1)
            (if jumps_performed = 0 then consumed + 1 else consumed) qnames
      else
        if len = 0 then
          Except.ok ((if jumps_performed = 0 then consumed + 1 else consumed),
            qnames, jumps_performed)
        else
          match peekRange buf (pos + 1) len with
          | Except.error e => Except.error e
          | Except.ok byte_str =>
            readQnameLoop buf (pos + 1 + len) jumps_performed
              (if jumps_performed = 0 then consumed + len + 1 else consumed)
              (qnames ++ [lowerBytes byte_str])
termination_by (MAX_JUMPS + 1 - jumps_performed) * (buf.length + 1) + (buf.length - pos)
decreasing_by
  · have hj : jumps_performed ≤ MAX_JUMPS := by omega
    have hpos : pos < buf.length := by
      by_contra hge
      simp [peekU8, Nat.ge_of_not_lt hge] at h1
    have h2 : buf.length - offset ≤ buf.length := Nat.sub_le _ _
    have h3 : MAX_JUMPS + 1 - (jumps_performed + 1) + 1 = MAX_JUMPS + 1 - jumps_performed := by
      omega
    calc (MAX_JUMPS + 1 - (jumps_performed + 1)) * (buf.length + 1) + (buf.length - offset)
        ≤ (MAX_JUMPS + 1 - (jumps_performed + 1)) * (buf.length + 1) + buf.length := by omega
      _ < (MAX_JUMPS + 1 - jumps_performed) * (buf.length + 1) + (buf.length - pos) := by
          rw [← h3]; ring_nf; omega
  · have hpos : pos < buf.length := by
      by_contra hge
      simp [peekU8, Nat.ge_of_not_lt hge] at h1
    have : buf.length - (pos + 1 + len) < buf.length - pos := by omega
    omega

/-- The reading routine `ByteMessageBuffer::read_qname`
(src/parse/byte_message_buffer.rs lines 68-147).  `pos` is the start
position in the whole message buffer (in the source it is computed as
`self.len() - i.len()` from the remaining nom input `i`).  On success
it yields the number of input bytes consumed by the outer cursor and
the constructed `Qname`; a `Qname::try_from` failure is wrapped as
`ParseErr.Qname`. -/
def readQname (buf : List Nat) (pos : Nat) : Except ParseErr (Nat × Qname) :=
  match readQnameLoop buf pos 0 0 [] with
  | Except.error e => Except.error e
  | Except.ok (consumed, qnames, _) =>
    match Qname.tryFromVec qnames with
    | Except.error e => Except.error (ParseErr.Qname e)
    | Except.ok q => Except.ok (consumed, q)

/-- Instrument for stating the jump-limit claim: the same loop as
`readQnameLoop` but with the `MAX_JUMPS` guard removed and an explicit
fuel parameter (`none` means the fuel ran out).  On an error exit it
also records the current number of jumps.  A name "requires at most k
pointer follows" when this limit-free run terminates successfully with
a jump count of at most k. -/
def freeLoop (buf : List Nat) (gas pos jumps_performed consumed : Nat)
    (qnames : List (List Nat)) :
    Option (Except (ParseErr × Nat) (Nat × List (List Nat) × Nat)) :=
  match gas with
  | 0 => none
  | gas + 1 =>
    match peekU8 buf pos with
    | Except.error e => some (Except.error (e, jumps_performed))
    | Except.ok len =>
      if len &&& 0xC0 = 0xC0 then
        match peekU8 buf (pos + 1) with
        | Except.error e => some (Except.error (e, jumps_performed))
        | Except.ok b2 =>
          let offset := ((len ^^^ 0xC0) <<< 8) ||| b2
          freeLoop buf gas offset (jumps_performed + 1)
            (if jumps_performed = 0 then consumed + 1 else consumed) qnames
      else
        if len = 0 then
          some (Except.ok ((if jumps_performed = 0 then consumed + 1 else consumed),
            qnames, jumps_performed))
        else
          match peekRange buf (pos + 1) len with
          | Except.error e => some (Except.error (e, jumps_performed))
          | Except.ok byte_str =>
            freeLoop buf gas (pos + 1 + len) jumps_performed
              (if jumps_performed = 0 then consumed + len + 1 else consumed)
              (qnames ++ [lowerBytes byte_str])

/-! ### Bit codec and header (src/packet/parse.rs, src/packet/header.rs) -/

/-- Result-code enumeration (src/packet/parse.rs outside the reachable
file set appears identically in both module trees; see
src/packet/mod.rs lines 93-101). -/
inductive ResultCode
  | NoError
  | FormErr
  | ServFail
  | NxDomain
  | NoTimp
  | Refused
deriving DecidableEq

/-- Lenient 4-bit parse `impl From<u4> for ResultCode`
(src/packet/mod.rs lines 103-114): any value other than 1..=5 becomes
NoError. -/
def ResultCode.fromU4 (value : Nat) : ResultCode :=
  match value with
  | 1 => ResultCode.FormErr
  | 2 => ResultCode.ServFail
  | 3 => ResultCode.NxDomain
  | 4 => ResultCode.NoTimp
  | 5 => ResultCode.Refused
  | _ => ResultCode.NoError

/-- Emit side `impl From<ResultCode> for u4` (src/packet/mod.rs lines
116-127). -/
def ResultCode.toU4 : ResultCode → Nat
  | ResultCode.NoError => 0
  | ResultCode.FormErr => 1
  | ResultCode.ServFail => 2
  | ResultCode.NxDomain => 3
  | ResultCode.NoTimp => 4
  | ResultCode.Refused => 5

/-- The MSB-first bit writer `write_last_n_bits` (src/packet/parse.rs
lines 90-100): append the last `numBits` bits of `b`, most significant
first. -/
def writeLastNBits (b numBits : Nat) : List Bool :=
  (List.range numBits).map (fun k => b.testBit (numBits - 1 - k))

/-- Pack an MSB-first bit list into one byte value (the byte content
of `BitVec<u8, Msb0>::as_raw_slice` for one full byte). -/
def byteOfBits (bs : List Bool) : Nat :=
  bs.foldl (fun a b => 2 * a + (if b then 1 else 0)) 0

/-- Flush an MSB-first bit sequence to whole bytes, padding an
incomplete trailing byte with zero bits (the behaviour of
`as_raw_slice` in `write_bits`, src/packet/parse.rs lines 76-88). -/
def bitsToBytes : List Bool → List Nat
  | [] => []
  | b :: bs =>
    byteOfBits ((b :: bs).take 8 ++
      List.replicate (8 - ((b :: bs).take 8).length) false) ::
    bitsToBytes ((b :: bs).drop 8)
termination_by bs => bs.length
decreasing_by
  simp [List.length_drop]
  omega

/-- Explode a byte into its 8 bits, MSB first (the reading direction
of nom's bit-level `take`, src/packet/parse.rs lines 60-70). -/
def bitsOfByte (b : Nat) : List Bool :=
  (List.range 8).map (fun k => b.testBit (7 - k))

/-- Explode a byte sequence into an MSB-first bit stream. -/
def bitsOfBytes (bs : List Nat) : List Bool := bs.flatMap bitsOfByte

/-- Bit-level `take n`: consume `n` bits MSB-first and return their
value together with the remaining bits (nom's
`bits::complete::take`). -/
def takeBits (n : Nat) (bs : List Bool) : Nat × List Bool :=
  (byteOfBits (bs.take n), bs.drop n)

/-- The two flag octets (src/packet/header.rs lines 12-25). The
4-bit opcode is a plain Nat expected to be < 16 (Rust `u4`). -/
structure DnsHeaderFlags where
  response : Bool
  opcode : Nat
  authoritative_answer : Bool
  truncated_message : Bool
  recursion_desired : Bool
  recursion_available : Bool
  z : Bool
  authed_data : Bool
  checking_disabled : Bool
  rescode : ResultCode
deriving DecidableEq

/-- Bit image of `DnsHeaderFlags::serialize` (src/packet/header.rs
lines 92-105): each field written MSB-first in source order. -/
def DnsHeaderFlags.bits (f : DnsHeaderFlags) : List Bool :=
  writeLastNBits (if f.response then 1 else 0) 1 ++
  writeLastNBits f.opcode 4 ++
  writeLastNBits (if f.authoritative_answer then 1 else 0) 1 ++
  writeLastNBits (if f.truncated_message then 1 else 0) 1 ++
  writeLastNBits (if f.recursion_desired then 1 else 0) 1 ++
  writeLastNBits (if f.recursion_available then 1 else 0) 1 ++
  writeLastNBits (if f.z then 1 else 0) 1 ++
  writeLastNBits (if f.authed_data then 1 else 0) 1 ++
  writeLastNBits (if f.checking_disabled then 1 else 0) 1 ++
  writeLastNBits f.rescode.toU4 4

/-- Byte image of `DnsHeaderFlags::serialize`: the accumulated bits
flushed to bytes by `write_bits`. -/
def DnsHeaderFlags.serializeBytes (f : DnsHeaderFlags) : List Nat :=
  bitsToBytes f.bits

/-- Parser `DnsHeaderFlags::parse` (src/packet/header.rs lines 44-90):
inside a 2-byte `bits` combinator read, MSB-first, response,
opcode(4), aa, tc, rd, then ra, z, ad, cd, rescode(4); the raw 4-bit
rescode goes through `ResultCode::from`. -/
def DnsHeaderFlags.parse (i : List Nat) :
    Option (List Nat × DnsHeaderFlags) :=
  if i.length < 2 then none
  else
    let bs := bitsOfBytes (i.take 2)
    let (response, bs) := takeBits 1 bs
    let (opcode, bs) := takeBits 4 bs
    let (authoritative_answer, bs) := takeBits 1 bs
    let (truncated_message, bs) := takeBits 1 bs
    let (recursion_desired, bs) := takeBits 1 bs
    let (recursion_available, bs) := takeBits 1 bs
    let (z, bs) := takeBits 1 bs
    let (authed_data, bs) := takeBits 1 bs
    let (checking_disabled, bs) := takeBits 1 bs
    let (rescode, _) := takeBits 4 bs
    some (i.drop 2,
      { response := response != 0
        opcode := opcode
        authoritative_answer := authoritative_answer != 0
        truncated_message := truncated_message != 0
        recursion_desired := recursion_desired != 0
        recursion_available := recursion_available != 0
        z := z != 0
        authed_data := authed_data != 0
        checking_disabled := checking_disabled != 0
        rescode := ResultCode.fromU4 rescode })

/-- Big-endian 16-bit emit (cookie_factory `be_u16`); the fields are
Rust u16, the casts to bytes are explicit. -/
def beU16 (n : Nat) : List Nat := [n / 256 % 256, n % 256]

/-- Big-endian 32-bit emit (cookie_factory `be_u32`). -/
def beU32 (n : Nat) : List Nat :=
  [n / 16777216 % 256, n / 65536 % 256, n / 256 % 256, n % 256]

/-- Big-endian 16-bit parse (nom `be_u16`). -/
def parseBeU16 (i : List Nat) : Option (List Nat × Nat) :=
  match i with
  | b0 :: b1 :: rest => some (rest, b0 * 256 + b1)
  | _ => none

/-- The 12-byte header (src/packet/header.rs lines 108-116). -/
structure DnsHeader where
  id : Nat
  flags : DnsHeaderFlags
  questions : Nat
  answers : Nat
  authoritative_entries : Nat
  resource_entries : Nat
deriving DecidableEq

/-- Emitter `DnsHeader::serialize` (src/packet/header.rs lines
154-165): id, the two flag bytes, then the four counts, all
big-endian. -/
def DnsHeader.serializeBytes (h : DnsHeader) : List Nat :=
  beU16 h.id ++ h.flags.serializeBytes ++ beU16 h.questions ++
  beU16 h.answers ++ beU16 h.authoritative_entries ++
  beU16 h.resource_entries

/-- Parser `DnsHeader::parse` (src/packet/header.rs lines 130-152). -/
def DnsHeader.parse (i : List Nat) : Option (List Nat × DnsHeader) := do
  let (i, id) ← parseBeU16 i
  let (i, flags) ← DnsHeaderFlags.parse i
  let (i, questions) ← parseBeU16 i
  let (i, answers) ← parseBeU16 i
  let (i, authoritative_entries) ← parseBeU16 i
  let (i, resource_entries) ← parseBeU16 i
  some (i, { id, flags, questions, answers, authoritative_entries,
             resource_entries })

/-! ### QueryType and records (src/packet/query_type.rs,
src/packet/record.rs) -/

/-- Tagged query type (src/packet/query_type.rs lines 3-14). -/
inductive QueryType
  | Unknown (v : Nat)
  | A
  | Ns
  | Cname
  | Soa
  | Mx
  | Aaaa
deriving DecidableEq

/-- Wire number of a query type, `impl From<QueryType> for u16`
(src/packet/query_type.rs lines 32-46). -/
def QueryType.toU16 : QueryType → Nat
  | QueryType.Unknown x => x
  | QueryType.A => 1
  | QueryType.Ns => 2
  | QueryType.Cname => 5
  | QueryType.Soa => 6
  | QueryType.Mx => 15
  | QueryType.Aaaa => 28

/-- Emitter `QueryType::serialize` (src/packet/query_type.rs lines
54-58): one big-endian u16. -/
def QueryType.serializeBytes (q : QueryType) : List Nat := beU16 q.toU16

/-- Resource record (src/packet/record.rs lines 16-61).  IP addresses
are kept as their octet lists (`Ipv4Addr::octets` has 4 entries,
`Ipv6Addr::octets` 16). -/
inductive DnsRecord
  | Unknown (domain : Qname) (qtype : QueryType) (data_len ttl : Nat)
  | A (domain : Qname) (addr : List Nat) (ttl : Nat)
  | Ns (domain : Qname) (host : Qname) (ttl : Nat)
  | Cname (domain : Qname) (host : Qname) (ttl : Nat)
  | Soa (domain : Qname) (ttl : Nat) (primary_ns email : Qname)
      (serial refresh retry expire min_ttl : Nat)
  | Mx (domain : Qname) (priority : Nat) (host : Qname) (ttl : Nat)
  | Aaaa (domain : Qname) (addr : List Nat) (ttl : Nat)
deriving DecidableEq

/-- Emitter `DnsRecord::serialize` (src/packet/record.rs lines
142-243).  Each arm writes name, type, class `1`, ttl, then the
rdlength and rdata of that arm; the NS/CNAME/MX/SOA arms obtain the
rdlength through `Qname::serialized_size`, whose unwrap can panic
(`none`).  The Unknown arm emits nothing. -/
def DnsRecord.serializeBytes : DnsRecord → Option (List Nat)
  | DnsRecord.A domain addr ttl =>
    some (domain.serializeBytes ++ QueryType.A.serializeBytes ++ beU16 1 ++
      beU32 ttl ++ beU16 4 ++ addr)
  | DnsRecord.Aaaa domain addr ttl =>
    some (domain.serializeBytes ++ QueryType.Aaaa.serializeBytes ++ beU16 1 ++
      beU32 ttl ++ beU16 16 ++ addr)
  | DnsRecord.Ns domain host ttl =>
    (host.serializedSize?).map (fun n =>
      domain.serializeBytes ++ QueryType.Ns.serializeBytes ++ beU16 1 ++
      beU32 ttl ++ beU16 n ++ host.serializeBytes)
  | DnsRecord.Cname domain host ttl =>
    (host.serializedSize?).map (fun n =>
      domain.serializeBytes ++ QueryType.Cname.serializeBytes ++ beU16 1 ++
      beU32 ttl ++ beU16 n ++ host.serializeBytes)
  | DnsRecord.Soa domain ttl primary_ns email serial refresh retry expire min_ttl =>
    match primary_ns.serializedSize?, email.serializedSize? with
    | some a, some b =>
      some (domain.serializeBytes ++ QueryType.Soa.serializeBytes ++ beU16 1 ++
        beU32 ttl ++ beU16 (a + b + 5 * 4) ++ primary_ns.serializeBytes ++
        email.serializeBytes ++ beU32 serial ++ beU32 refresh ++
        beU32 retry ++ beU32 expire ++ beU32 min_ttl)
    | _, _ => none
  | DnsRecord.Mx domain priority host ttl =>
    (host.serializedSize?).map (fun n =>
      domain.serializeBytes ++ QueryType.Mx.serializeBytes ++ beU16 1 ++
      beU32 ttl ++ beU16 (n + 2) ++ beU16 priority ++ host.serializeBytes)
  | DnsRecord.Unknown _ _ _ _ => some []

/-- Discriminator for the Unknown variant. -/
def DnsRecord.isUnknown : DnsRecord → Bool
  | DnsRecord.Unknown _ _ _ _ => true
  | _ => false

/-- The type invariant the Rust address types carry: `Ipv4Addr` has 4
octets and `Ipv6Addr` 16. -/
def DnsRecord.addrWf : DnsRecord → Prop
  | DnsRecord.A _ addr _ => addr.length = 4
  | DnsRecord.Aaaa _ addr _ => addr.length = 16
  | _ => True

/-- The fixed wire prefix every emitted record starts with:
name, type, class `1`, ttl, in the order of each serialize arm
(src/packet/record.rs lines 142-243). -/
def DnsRecord.preamble : DnsRecord → List Nat
  | DnsRecord.Unknown domain qtype _ ttl =>
    domain.serializeBytes ++ qtype.serializeBytes ++ beU16 1 ++ beU32 ttl
  | DnsRecord.A domain _ ttl =>
    domain.serializeBytes ++ QueryType.A.serializeBytes ++ beU16 1 ++ beU32 ttl
  | DnsRecord.Aaaa domain _ ttl =>
    domain.serializeBytes ++ QueryType.Aaaa.serializeBytes ++ beU16 1 ++ beU32 ttl
  | DnsRecord.Ns domain _ ttl =>
    domain.serializeBytes ++ QueryType.Ns.serializeBytes ++ beU16 1 ++ beU32 ttl
  | DnsRecord.Cname domain _ ttl =>
    domain.serializeBytes ++ QueryType.Cname.serializeBytes ++ beU16 1 ++ beU32 ttl
  | DnsRecord.Soa domain ttl _ _ _ _ _ _ _ =>
    domain.serializeBytes ++ QueryType.Soa.serializeBytes ++ beU16 1 ++ beU32 ttl
  | DnsRecord.Mx domain _ _ ttl =>
    domain.serializeBytes ++ QueryType.Mx.serializeBytes ++ beU16 1 ++ beU32 ttl

/-- The rdlength value the specification prescribes per record type:
4 for A, 16 for AAAA, the serialized size of the host for NS/CNAME,
2 plus it for MX, the two serialized sizes plus 20 for SOA. -/
def DnsRecord.claimedRdlength : DnsRecord → Nat
  | DnsRecord.Unknown _ _ _ _ => 0
  | DnsRecord.A _ _ _ => 4
  | DnsRecord.Aaaa _ _ _ => 16
  | DnsRecord.Ns _ host _ => host.serializeBytes.length
  | DnsRecord.Cname _ host _ => host.serializeBytes.length
  | DnsRecord.Soa _ _ primary_ns email _ _ _ _ _ =>
    primary_ns.serializeBytes.length + email.serializeBytes.length + 20
  | DnsRecord.Mx _ _ host _ => 2 + host.serializeBytes.length

/-! ### Question and message selectors (src/parse/dns_question.rs,
src/parse/dns_packet.rs) -/

/-- A question value (src/parse/dns_question.rs lines 24-28). -/
structure DnsQuestion where
  name : Qname
  qtype : QueryType
deriving DecidableEq

/-- The assembled message (src/parse/dns_packet.rs lines 21-28; the
same shape is `DnsMessage` in src/packet/message.rs). -/
structure DnsPacket where
  header : DnsHeader
  questions : List DnsQuestion
  answers : List DnsRecord
  authorities : List DnsRecord
  resources : List DnsRecord

/-- Selector `DnsPacket::get_ns` (src/parse/dns_packet.rs lines
94-103): the (domain, host) pairs of NS authorities whose domain
passes `qname.ends_with(domain)`. -/
def DnsPacket.getNs (m : DnsPacket) (qname : Qname) : List (Qname × Qname) :=
  (m.authorities.filterMap (fun r =>
    match r with
    | DnsRecord.Ns domain host _ => some (domain, host)
    | _ => none)).filter (fun p => qname.endsWith p.1)

/-- Selector `DnsPacket::get_resolved_ns` (src/parse/dns_packet.rs
lines 105-117): the first glue address among the NS targets. -/
def DnsPacket.getResolvedNs (m : DnsPacket) (qname : Qname) : Option (List Nat) :=
  ((m.getNs qname).flatMap (fun p =>
    m.resources.filterMap (fun r =>
      match r with
      | DnsRecord.A domain addr _ => if domain = p.2 then some addr else none
      | _ => none))).head?

/-- Selector `DnsPacket::get_unresolved_ns` (src/parse/dns_packet.rs
lines 119-121): the first NS host from `get_ns` (the `message.rs`
variant at src/packet/message.rs lines 128-132 picks a random one
instead of the first). -/
def DnsPacket.getUnresolvedNs (m : DnsPacket) (qname : Qname) : Option Qname :=
  ((m.getNs qname).map (fun p => p.2)).head?

/-! ### Concrete example values used by individual theorems -/

/-- The byte string "com" as a label. -/
def comLabel : List Nat := [99, 111, 109]

/-- The byte string "google" as a label. -/
def googleLabel : List Nat := [103, 111, 111, 103, 108, 101]

/-- The qname com. -/
def comQ : Qname := ⟨[comLabel]⟩

/-- The qname ns.com ("ns" then "com"). -/
def nsComQ : Qname := ⟨[[110, 115], comLabel]⟩

/-- A message whose authority section holds one NS record delegating
com to ns.com, and whose additional section holds matching glue: an A
record for ns.com.  In it every NS target has glue. -/
def gluedMsg : DnsPacket :=
  { header :=
      { id := 0
        flags :=
          { response := false, opcode := 0, authoritative_answer := false
            truncated_message := false, recursion_desired := false
            recursion_available := false, z := false, authed_data := false
            checking_disabled := false, rescode := ResultCode.NoError }
        questions := 0, answers := 0
        authoritative_entries := 1, resource_entries := 1 }
    questions := []
    answers := []
    authorities := [DnsRecord.Ns comQ nsComQ 3600]
    resources := [DnsRecord.A nsComQ [192, 0, 2, 1] 3600] }

/-- The same message with the glue record removed. -/
def glueless : DnsPacket :=
  { gluedMsg with resources := [] }

/-- A label of 62 copies of the byte 97. -/
def label62 : List Nat := List.replicate 62 97

/-- A dotted name of raw length 255 (four 62-byte labels, one 3-byte
label, four dots), every label shorter than MAX_LABEL_LEN; its
serialized form needs 257 bytes. -/
def longName : List Nat :=
  label62 ++ [46] ++ label62 ++ [46] ++ label62 ++ [46] ++ label62 ++
  [46] ++ [97, 97, 97]

/-- The Qname the string constructor builds from longName. -/
def longQ : Qname :=
  ⟨[label62, label62, label62, label62, [97, 97, 97]]⟩

/-- A sample flags value exercising every field. -/
def sampleFlags : DnsHeaderFlags :=
  { response := true, opcode := 11, authoritative_answer := false
    truncated_message := true, recursion_desired := false
    recursion_available := true, z := false, authed_data := true
    checking_disabled := false, rescode := ResultCode.NxDomain }

/-- A sample header with distinct section counts. -/
def sampleHeader : DnsHeader :=
  { id := 5940, flags := sampleFlags, questions := 1, answers := 2
    authoritative_entries := 3, resource_entries := 4 }

/-- A sample NS record (domain "a", host "b.c"). -/
def sampleNsRecord : DnsRecord :=
  DnsRecord.Ns ⟨[[97]]⟩ ⟨[[98], [99]]⟩ 300

/-! ## Theorems -/

/-- C1: counterevidence.  In the buffer `[1, 97, 0, 1, 98, 0xC0, 0]`
the name starting at position 3 is one 1-byte label (2 bytes of
encoding) followed by a 2-byte compression pointer to offset 0, so the
claim predicts 2 + 2 = 4 consumed bytes; `read_qname` succeeds but
reports only 3 consumed bytes (the pointer advances the outer cursor
by a single byte, src/parse/byte_message_buffer.rs lines 103-105). -/
theorem c1_pointer_consumed_one_byte :
    readQname [1, 97, 0, 1, 98, 192, 0] 3 =
      Except.ok (3, ⟨[[98], [97]]⟩) ∧ (3 : Nat) ≠ 2 + 2 := by
  refine ⟨?_, by decide⟩
  simp [readQname, readQnameLoop, peekU8, peekRange, MAX_JUMPS, lowerBytes, toLowerByte,
    Qname.tryFromVec, MAX_LABEL_LEN, MAX_QNAME_LEN, List.mapM, List.mapM.loop, bind,
    Except.bind, pure, Except.pure, List.sum_cons, List.sum_nil]

/-- C2: counterevidence.  With a = com and b = google.com, b has more
labels than a, so the claim requires `a.ends_with(b) = false`; the
source's `zip` of the reversed label sequences truncates to the
shorter sequence (src/packet/qname.rs lines 118-120) and returns
true. -/
theorem c2_ends_with_truncates :
    Qname.endsWith comQ ⟨[googleLabel, comLabel]⟩ = true ∧
    comQ.inner.length < (Qname.mk [googleLabel, comLabel]).inner.length := by
  decide

/-- C7: counterexample.  On the 3-byte buffer `[1, 2, 3]` the range
starting at 1 of length 2 ends exactly at the end of the buffer
(1 + 2 ≤ 3), so the claim requires success; `peek_range` rejects it
with the out-of-bounds error because its guard is
`start + len >= buf.len()` (src/parse/byte_message_buffer.rs line
55). -/
theorem c7_range_ending_at_end_fails :
    peekRange [1, 2, 3] 1 2 = Except.error (ParseErr.Bound 3 3) ∧
    1 + 2 ≤ [1, 2, 3].length := by
  exact ⟨rfl, by decide⟩

/-- C7 (amended): `peek_range(start, len)` returns the `len` bytes at
positions `[start, start+len)` exactly when `start + len < n`, and
fails with the out-of-bounds error exactly when `start + len ≥ n`; in
particular a range ending exactly at the end of the buffer fails. -/
theorem c7_peek_range_characterization (buf : List Nat) (start len : Nat) :
    (start + len < buf.length →
      peekRange buf start len = Except.ok ((buf.drop start).take len)) ∧
    (buf.length ≤ start + len →
      peekRange buf start len =
        Except.error (ParseErr.Bound buf.length (start + len))) := by
  constructor <;> intro h <;> simp [peekRange] <;> omega

/-- C7 witness: the characterization applied on the concrete buffer
`[1, 2, 3]`, in bounds at (0, 2) and out of bounds at (1, 2). -/
theorem c7_peek_range_witness :
    (0 + 2 < ([1, 2, 3] : List Nat).length ∧
      peekRange [1, 2, 3] 0 2 = Except.ok [1, 2]) ∧
    (([1, 2, 3] : List Nat).length ≤ 1 + 2 ∧
      peekRange [1, 2, 3] 1 2 = Except.error (ParseErr.Bound 3 3)) := by
  refine ⟨⟨by decide, ?_⟩, ⟨by decide, ?_⟩⟩
  · exact (c7_peek_range_characterization [1, 2, 3] 0 2).1 (by decide)
  · exact (c7_peek_range_characterization [1, 2, 3] 1 2).2 (by decide)

/-- C9: counterexample.  In `gluedMsg` the only NS target ns.com has
matching glue (an A record for ns.com sits in the resources section),
yet `get_unresolved_ns` returns ns.com: the selector never checks for
missing glue (src/parse/dns_packet.rs lines 119-121). -/
theorem c9_returns_glued_target :
    DnsPacket.getUnresolvedNs gluedMsg comQ = some nsComQ ∧
    DnsRecord.A nsComQ [192, 0, 2, 1] 3600 ∈ gluedMsg.resources := by
  decide

/-- C9 (amended): if `get_unresolved_ns(m, q)` returns a host qname,
then that host is the target of an NS record in m's authorities whose
domain matches q per `get_ns`; no glue-absence condition holds — the
selector may also return NS targets that do have matching A glue. -/
theorem c9_unresolved_ns_is_ns_target (m : DnsPacket) (q h : Qname)
    (hsel : m.getUnresolvedNs q = some h) :
    ∃ d ttl, DnsRecord.Ns d h ttl ∈ m.authorities ∧ q.endsWith d = true := by
  unfold DnsPacket.getUnresolvedNs at hsel
  rw [List.head?_map] at hsel
  obtain ⟨p, hp, rfl⟩ := Option.map_eq_some'.mp hsel
  have hmem : p ∈ m.getNs q := List.mem_of_mem_head? (by simpa using hp)
  unfold DnsPacket.getNs at hmem
  obtain ⟨hmem2, hfilt⟩ := List.mem_filter.mp hmem
  obtain ⟨r, hr, hf⟩ := List.mem_filterMap.mp hmem2
  cases r with
  | Ns domain host ttl =>
    simp only [Option.some.injEq] at hf
    subst hf
    exact ⟨domain, ttl, hr, by simpa using hfilt⟩
  | Unknown d t dl ttl => simp at hf
  | A d a t => simp at hf
  | Cname d h t => simp at hf
  | Soa d t p e s r1 r2 e2 m2 => simp at hf
  | Mx d p h t => simp at hf
  | Aaaa d a t => simp at hf

/-- C9 witness: in the glueless referral message the selector returns
ns.com, which the amended theorem certifies as a matching NS target. -/
theorem c9_witness :
    DnsPacket.getUnresolvedNs glueless comQ = some nsComQ ∧
    ∃ d ttl, DnsRecord.Ns d nsComQ ttl ∈ glueless.authorities ∧
      comQ.endsWith d = true := by
  have h : DnsPacket.getUnresolvedNs glueless comQ = some nsComQ := by decide
  exact ⟨h, c9_unresolved_ns_is_ns_target glueless comQ nsComQ h⟩

/-! ### Header round-trip (C5) -/

/-- Exploding the byte packed from 8 MSB-first bits recovers the
bits. -/
theorem bitsOfByte_byteOfBits :
    ∀ a b c d e f g h : Bool,
      bitsOfByte (byteOfBits [a, b, c, d, e, f, g, h]) =
        [a, b, c, d, e, f, g, h] := by
  decide

/-- Packing the four MSB-first bits of a 4-bit value recovers the
value. -/
theorem byteOfBits_testBit4 :
    ∀ x : Fin 16,
      byteOfBits [x.val.testBit 3, x.val.testBit 2, x.val.testBit 1,
        x.val.testBit 0] = x.val := by
  decide

/-- The bit written for a boolean field is the boolean itself. -/
theorem testBit_boolVal (b : Bool) :
    Nat.testBit (if b then 1 else 0) 0 = b := by
  cases b <;> rfl

/-- The simp-normal form of reading back a boolean field's bit. -/
theorem decide_boolVal (b : Bool) :
    decide ((if b then (1 : Nat) else 0) % 2 = 1) = b := by
  cases b <;> rfl

/-- Reading back the single bit of a boolean field with a 1-bit take
recovers the boolean. -/
theorem byteOfBits_single_ne (b : Bool) : (byteOfBits [b] != 0) = b := by
  cases b <;> rfl

/-- The 4-bit wire value of every result code parses back to the same
result code. -/
theorem rescode_roundtrip (rc : ResultCode) :
    ResultCode.fromU4 (byteOfBits [rc.toU4.testBit 3, rc.toU4.testBit 2,
      rc.toU4.testBit 1, rc.toU4.testBit 0]) = rc := by
  cases rc <;> rfl

/-- The flag bit sequence, written out field by field. -/
theorem flags_bits_eq (f : DnsHeaderFlags) :
    f.bits = [f.response, f.opcode.testBit 3, f.opcode.testBit 2,
      f.opcode.testBit 1, f.opcode.testBit 0, f.authoritative_answer,
      f.truncated_message, f.recursion_desired, f.recursion_available,
      f.z, f.authed_data, f.checking_disabled, f.rescode.toU4.testBit 3,
      f.rescode.toU4.testBit 2, f.rescode.toU4.testBit 1,
      f.rescode.toU4.testBit 0] := by
  simp [DnsHeaderFlags.bits, writeLastNBits, List.range_succ, testBit_boolVal,
    decide_boolVal]

/-- The two flag bytes of `DnsHeaderFlags::serialize`. -/
theorem flags_serializeBytes_eq (f : DnsHeaderFlags) :
    f.serializeBytes = [byteOfBits [f.response, f.opcode.testBit 3,
        f.opcode.testBit 2, f.opcode.testBit 1, f.opcode.testBit 0,
        f.authoritative_answer, f.truncated_message, f.recursion_desired],
      byteOfBits [f.recursion_available, f.z, f.authed_data,
        f.checking_disabled, f.rescode.toU4.testBit 3,
        f.rescode.toU4.testBit 2, f.rescode.toU4.testBit 1,
        f.rescode.toU4.testBit 0]] := by
  rw [DnsHeaderFlags.serializeBytes, flags_bits_eq]
  simp [bitsToBytes]

/-- Taking one element of a cons list. -/
theorem take_one_cons {a : Type} (x : a) (l : List a) :
    List.take 1 (x :: l) = [x] := rfl

/-- Dropping one element of a cons list. -/
theorem drop_one_cons {a : Type} (x : a) (l : List a) :
    List.drop 1 (x :: l) = l := rfl

/-- Taking four elements of a cons list. -/
theorem take_four_cons {a : Type} (x y z w : a) (l : List a) :
    List.take 4 (x :: y :: z :: w :: l) = [x, y, z, w] := rfl

/-- Dropping four elements of a cons list. -/
theorem drop_four_cons {a : Type} (x y z w : a) (l : List a) :
    List.drop 4 (x :: y :: z :: w :: l) = l := rfl

/-- Parsing the two emitted flag bytes recovers the flags value
whenever the opcode is a genuine 4-bit value. -/
theorem flags_parse_serialize (f : DnsHeaderFlags) (hop : f.opcode < 16)
    (rest : List Nat) :
    DnsHeaderFlags.parse (f.serializeBytes ++ rest) = some (rest, f) := by
  rw [flags_serializeBytes_eq]
  simp only [List.cons_append, List.nil_append]
  rw [DnsHeaderFlags.parse]
  simp only [List.length_cons, List.take_succ_cons, List.take_zero,
    List.drop_succ_cons, List.drop_zero]
  rw [if_neg (by omega)]
  simp only [bitsOfBytes, List.flatMap_cons, List.flatMap_nil,
    bitsOfByte_byteOfBits, List.append_nil, takeBits]
  simp only [List.cons_append, List.nil_append]
  simp only [take_one_cons, drop_one_cons, take_four_cons, drop_four_cons]
  have hresp := byteOfBits_single_ne f.response
  have haa := byteOfBits_single_ne f.authoritative_answer
  have htc := byteOfBits_single_ne f.truncated_message
  have hrd := byteOfBits_single_ne f.recursion_desired
  have hra := byteOfBits_single_ne f.recursion_available
  have hz := byteOfBits_single_ne f.z
  have had := byteOfBits_single_ne f.authed_data
  have hcd := byteOfBits_single_ne f.checking_disabled
  have hopc : byteOfBits [f.opcode.testBit 3, f.opcode.testBit 2,
      f.opcode.testBit 1, f.opcode.testBit 0] = f.opcode :=
    byteOfBits_testBit4 ⟨f.opcode, hop⟩
  have hrc := rescode_roundtrip f.rescode
  simp only [hresp, haa, htc, hrd, hra, hz, had, hcd, hopc, hrc]

/-- Big-endian 16-bit round-trip for genuine u16 values. -/
theorem parseBeU16_beU16 (n : Nat) (hn : n < 65536) (rest : List Nat) :
    parseBeU16 (beU16 n ++ rest) = some (rest, n) := by
  simp only [beU16, List.cons_append, List.nil_append, parseBeU16]
  congr 1
  congr 1
  omega

/-- C5: the header codec round-trips.  For every header value whose
numeric fields fit their Rust types (u16 counts and id, 4-bit opcode),
`DnsHeader::serialize` emits exactly 12 bytes, and `DnsHeader::parse`
on those bytes consumes them all and returns the identical header:
same id, same ten flag fields (opcode and rescode included) and same
four section counts. -/
theorem c5_header_roundtrip (h : DnsHeader) (hid : h.id < 65536)
    (hq : h.questions < 65536) (ha : h.answers < 65536)
    (hau : h.authoritative_entries < 65536)
    (hre : h.resource_entries < 65536) (hop : h.flags.opcode < 16) :
    (DnsHeader.serializeBytes h).length = 12 ∧
    DnsHeader.parse (DnsHeader.serializeBytes h) = some ([], h) := by
  constructor
  · simp [DnsHeader.serializeBytes, flags_serializeBytes_eq, beU16]
  · have e1 := parseBeU16_beU16 h.id hid
    have e2 := fun rest => flags_parse_serialize h.flags hop rest
    have e3 := parseBeU16_beU16 h.questions hq
    have e4 := parseBeU16_beU16 h.answers ha
    have e5 := parseBeU16_beU16 h.authoritative_entries hau
    have e6 : parseBeU16 (beU16 h.resource_entries) =
        some ([], h.resource_entries) := by
      simpa using parseBeU16_beU16 h.resource_entries hre []
    rw [DnsHeader.parse, DnsHeader.serializeBytes]
    simp only [List.append_assoc]
    simp [e1, e2, e3, e4, e5, e6, bind, Option.bind]

/-- C5 witness: the round-trip applied to the sample header. -/
theorem c5_header_roundtrip_witness :
    (sampleHeader.id < 65536 ∧ sampleHeader.questions < 65536 ∧
      sampleHeader.answers < 65536 ∧
      sampleHeader.authoritative_entries < 65536 ∧
      sampleHeader.resource_entries < 65536 ∧
      sampleHeader.flags.opcode < 16) ∧
    (DnsHeader.serializeBytes sampleHeader).length = 12 ∧
    DnsHeader.parse (DnsHeader.serializeBytes sampleHeader) =
      some ([], sampleHeader) :=
  ⟨by decide, c5_header_roundtrip sampleHeader (by decide) (by decide)
    (by decide) (by decide) (by decide) (by decide)⟩

/-! ### Record rdlength (C8) -/

/-- Characterization of a successful `serialized_size` call: it
returns exactly the emitted byte length, and only when that length
fits the 255-byte scratch buffer. -/
theorem serializedSize?_eq_some (q : Qname) (n : Nat) :
    q.serializedSize? = some n ↔
      q.serializeBytes.length ≤ MAX_QNAME_LEN ∧ n = q.serializeBytes.length := by
  unfold Qname.serializedSize?
  by_cases hle : q.serializeBytes.length ≤ MAX_QNAME_LEN
  · simp [hle, eq_comm]
  · simp [hle]

/-- C8: for every record the record emitter actually writes (every
variant except Unknown, whose arm emits nothing), the emitted bytes
are the record preamble (name, type, class, ttl) followed by the
16-bit rdlength field and then rdata whose byte count equals the
written rdlength: 4 for A, 16 for AAAA, the serialized host size for
NS and CNAME, 2 plus it for MX, and the two serialized qname sizes
plus 20 for SOA. -/
theorem c8_rdlength_matches_rdata (r : DnsRecord) (hw : r.addrWf)
    (hu : r.isUnknown = false) (bs : List Nat)
    (h : r.serializeBytes = some bs) :
    ∃ R, bs = r.preamble ++ beU16 r.claimedRdlength ++ R ∧
      R.length = r.claimedRdlength := by
  cases r with
  | Unknown d q dl t => simp [DnsRecord.isUnknown] at hu
  | A d addr t =>
    simp only [DnsRecord.serializeBytes, Option.some.injEq] at h
    subst h
    refine ⟨addr, ?_, hw⟩
    simp [DnsRecord.preamble, DnsRecord.claimedRdlength]
  | Aaaa d addr t =>
    simp only [DnsRecord.serializeBytes, Option.some.injEq] at h
    subst h
    refine ⟨addr, ?_, hw⟩
    simp [DnsRecord.preamble, DnsRecord.claimedRdlength]
  | Ns d host t =>
    simp only [DnsRecord.serializeBytes, Option.map_eq_some'] at h
    obtain ⟨n, hn, rfl⟩ := h
    obtain ⟨-, rfl⟩ := (serializedSize?_eq_some host n).mp hn
    refine ⟨host.serializeBytes, ?_, rfl⟩
    simp [DnsRecord.preamble, DnsRecord.claimedRdlength]
  | Cname d host t =>
    simp only [DnsRecord.serializeBytes, Option.map_eq_some'] at h
    obtain ⟨n, hn, rfl⟩ := h
    obtain ⟨-, rfl⟩ := (serializedSize?_eq_some host n).mp hn
    refine ⟨host.serializeBytes, ?_, rfl⟩
    simp [DnsRecord.preamble, DnsRecord.claimedRdlength]
  | Mx d prio host t =>
    simp only [DnsRecord.serializeBytes, Option.map_eq_some'] at h
    obtain ⟨n, hn, rfl⟩ := h
    obtain ⟨-, rfl⟩ := (serializedSize?_eq_some host n).mp hn
    refine ⟨beU16 prio ++ host.serializeBytes, ?_, ?_⟩
    · simp [DnsRecord.preamble, DnsRecord.claimedRdlength, beU16,
        Nat.add_comm]
    · simp [beU16, DnsRecord.claimedRdlength]
      omega
  | Soa d t pns em se re ry ex mi =>
    cases hp : pns.serializedSize? with
    | none => simp [DnsRecord.serializeBytes, hp] at h
    | some a =>
      cases he : em.serializedSize? with
      | none => simp [DnsRecord.serializeBytes, hp, he] at h
      | some b =>
        simp only [DnsRecord.serializeBytes, hp, he, Option.some.injEq] at h
        subst h
        obtain ⟨-, rfl⟩ := (serializedSize?_eq_some pns a).mp hp
        obtain ⟨-, rfl⟩ := (serializedSize?_eq_some em b).mp he
        refine ⟨pns.serializeBytes ++ em.serializeBytes ++ beU32 se ++
          beU32 re ++ beU32 ry ++ beU32 ex ++ beU32 mi, ?_, ?_⟩
        · simp only [DnsRecord.preamble, DnsRecord.claimedRdlength]
          simp [List.append_assoc, show (5 * 4 : Nat) = 20 from rfl]
        · simp [beU32, DnsRecord.claimedRdlength]
          omega

/-- C8 witness: the rdlength law applied to the sample NS record,
whose emitted rdlength 5 equals the 5 rdata bytes of the host
b.c. -/
theorem c8_rdlength_witness :
    sampleNsRecord.addrWf ∧ sampleNsRecord.isUnknown = false ∧
    ∃ R, [1, 97, 0, 0, 2, 0, 1, 0, 0, 1, 44, 0, 5, 1, 98, 1, 99, 0] =
        sampleNsRecord.preamble ++ beU16 sampleNsRecord.claimedRdlength ++ R ∧
      R.length = sampleNsRecord.claimedRdlength :=
  ⟨trivial, rfl,
    c8_rdlength_matches_rdata sampleNsRecord trivial rfl _ (by decide)⟩

/-! ### Qname constructor invariants (C6, C10) -/

/-- The per-label length check performed by both constructors: mapping
it over a list succeeds exactly when every label is shorter than
MAX_LABEL_LEN, and then returns the list unchanged. -/
theorem labelCheck_mapM (v l : List (List Nat)) :
    v.mapM (fun x =>
      if x.length < MAX_LABEL_LEN then Except.ok x
      else Except.error (QnameError.BadLabelLen x.length)) = Except.ok l ↔
    l = v ∧ ∀ x ∈ v, x.length < MAX_LABEL_LEN := by
  induction v generalizing l with
  | nil =>
    simp only [List.mapM_nil, pure, Except.pure]
    constructor
    · intro h; cases h; simp
    · rintro ⟨rfl, -⟩; rfl
  | cons a v ih =>
    simp only [List.mapM_cons]
    by_cases ha : a.length < MAX_LABEL_LEN
    · rw [if_pos ha]
      cases hm : v.mapM (fun x =>
        if x.length < MAX_LABEL_LEN then Except.ok x
        else Except.error (QnameError.BadLabelLen x.length)) with
      | error e =>
        simp only [bind, Except.bind, hm]
        constructor
        · intro h; cases h
        · rintro ⟨rfl, hall⟩
          have := (ih v).mpr ⟨rfl, fun x hx => hall x (List.mem_cons_of_mem a hx)⟩
          rw [hm] at this; cases this
      | ok bs =>
        obtain ⟨rfl, hall⟩ := (ih bs).mp hm
        simp only [bind, Except.bind, hm, pure, Except.pure]
        constructor
        · intro h; cases h
          exact ⟨rfl, by
            intro x hx
            rcases List.mem_cons.mp hx with rfl | hx
            · exact ha
            · exact hall x hx⟩
        · rintro ⟨rfl, -⟩; rfl
    · rw [if_neg ha]
      simp only [bind, Except.bind]
      constructor
      · intro h; cases h
      · rintro ⟨rfl, hall⟩
        exact absurd (hall a (List.mem_cons_self a v)) ha

theorem serializeBytes_length (q : Qname) :
    q.serializeBytes.length = (q.inner.map (fun x => x.length + 1)).sum + 1 := by
  simp [Qname.serializeBytes, List.length_flatMap, Function.comp_def,
    List.length_cons]

theorem tryFromVec_ok_iff (v : List (List Nat)) (q : Qname) :
    Qname.tryFromVec v = Except.ok q ↔
      q.inner = v ∧ (∀ x ∈ v, x.length < MAX_LABEL_LEN) ∧
      (v.map (fun x => x.length + 1)).sum + 1 ≤ MAX_QNAME_LEN := by
  unfold Qname.tryFromVec
  cases hm : v.mapM (fun x =>
    if x.length < MAX_LABEL_LEN then Except.ok x
    else Except.error (QnameError.BadLabelLen x.length)) with
  | error e =>
    simp only [bind, Except.bind, hm]
    constructor
    · intro h; cases h
    · rintro ⟨hq, hall, hsum⟩
      have := (labelCheck_mapM v v).mpr ⟨rfl, hall⟩
      rw [hm] at this; cases this
  | ok checked =>
    obtain ⟨rfl, hall⟩ := (labelCheck_mapM v checked).mp hm
    simp only [bind, Except.bind, hm]
    by_cases hs : (checked.map (fun x => x.length + 1)).sum + 1 > MAX_QNAME_LEN
    · rw [if_pos hs]
      constructor
      · intro h; cases h
      · rintro ⟨hq, -, hsum⟩; omega
    · rw [if_neg hs]
      constructor
      · intro h; cases h
        exact ⟨rfl, hall, by omega⟩
      · rintro ⟨hq, -, -⟩
        cases q
        simp only at hq
        subst hq
        rfl

theorem splitOnDot_ne_nil (s : List Nat) : splitOnDot s ≠ [] := by
  cases s with
  | nil => simp [splitOnDot]
  | cons b rest =>
    simp only [splitOnDot]
    cases h : splitOnDot rest with
    | nil => simp
    | cons cur done =>
      by_cases hb : b = 46 <;> simp [hb]

theorem splitOnDot_cons_eq (b : Nat) (rest cur : List Nat)
    (done : List (List Nat)) (h : splitOnDot rest = cur :: done) :
    splitOnDot (b :: rest) =
      if b = 46 then [] :: cur :: done else (b :: cur) :: done := by
  simp [splitOnDot, h]

theorem splitOnDot_sum (s : List Nat) :
    ((splitOnDot s).map List.length).sum + (splitOnDot s).length = s.length + 1 := by
  induction s with
  | nil => simp [splitOnDot]
  | cons b rest ih =>
    cases h : splitOnDot rest with
    | nil => exact absurd h (splitOnDot_ne_nil rest)
    | cons cur done =>
      rw [h] at ih
      rw [splitOnDot_cons_eq b rest cur done h]
      by_cases hb : b = 46
      · rw [if_pos hb]
        simp only [List.map_cons, List.sum_cons, List.length_cons,
          List.length_nil] at ih ⊢
        omega
      · rw [if_neg hb]
        simp only [List.map_cons, List.sum_cons, List.length_cons,
          List.length_nil] at ih ⊢
        omega

theorem splitStrings_ok_iff (s : List Nat) (l : List (List Nat)) :
    Qname.splitStrings s = Except.ok l ↔
      s.length ≤ MAX_QNAME_LEN ∧ l = splitOnDot s ∧
      ∀ x ∈ splitOnDot s, x.length < MAX_LABEL_LEN := by
  unfold Qname.splitStrings
  by_cases hlen : s.length > MAX_QNAME_LEN
  · rw [if_pos hlen]
    constructor
    · intro h; cases h
    · rintro ⟨h, -, -⟩; omega
  · rw [if_neg hlen]
    rw [labelCheck_mapM]
    constructor
    · rintro ⟨rfl, hall⟩; exact ⟨by omega, rfl, hall⟩
    · rintro ⟨-, rfl, hall⟩; exact ⟨rfl, hall⟩


/-- Sums of the per-label serialized sizes, split into label bytes and
length octets. -/
theorem sum_map_length_succ (l : List (List Nat)) :
    (l.map (fun x => x.length + 1)).sum = (l.map List.length).sum + l.length := by
  induction l with
  | nil => simp
  | cons a l ih => simp [ih]; omega

/-- C6 (amended): a Qname accepted by the vector-of-labels constructor
has every label shorter than MAX_LABEL_LEN and serializes into at most
MAX_QNAME_LEN bytes; a Qname accepted by a dotted-string constructor
has every label shorter than MAX_LABEL_LEN and serializes into exactly
two bytes more than the raw string, hence possibly up to
MAX_QNAME_LEN + 2 bytes; inputs that violate the checked limits are
rejected with a QnameError.  Neither constructor rejects empty
labels. -/
theorem c6_constructor_invariants :
    (∀ v q, Qname.tryFromVec v = Except.ok q →
      (∀ x ∈ q.inner, x.length < MAX_LABEL_LEN) ∧
      q.serializeBytes.length ≤ MAX_QNAME_LEN) ∧
    (∀ s q, Qname.tryFromStr s = Except.ok q →
      (∀ x ∈ q.inner, x.length < MAX_LABEL_LEN) ∧
      q.serializeBytes.length = s.length + 2 ∧
      q.serializeBytes.length ≤ MAX_QNAME_LEN + 2) ∧
    (∀ v, ((∃ x ∈ v, MAX_LABEL_LEN ≤ x.length) ∨
        MAX_QNAME_LEN < (v.map (fun x => x.length + 1)).sum + 1) →
      ∃ e, Qname.tryFromVec v = Except.error e) ∧
    (∀ s, ((∃ x ∈ splitOnDot s, MAX_LABEL_LEN ≤ x.length) ∨
        MAX_QNAME_LEN < s.length) →
      ∃ e, Qname.tryFromStr s = Except.error e) := by
  refine ⟨?_, ?_, ?_, ?_⟩
  · intro v q h
    obtain ⟨hinner, hall, hsum⟩ := (tryFromVec_ok_iff v q).mp h
    refine ⟨fun x hx => hall x (hinner ▸ hx), ?_⟩
    rw [serializeBytes_length, hinner]
    omega
  · intro s q h
    unfold Qname.tryFromStr at h
    cases hs : Qname.splitStrings s with
    | error e => rw [hs] at h; cases h
    | ok l =>
      rw [hs] at h
      cases h
      obtain ⟨hlen, hl, hall⟩ := (splitStrings_ok_iff s l).mp hs
      subst hl
      have hsum := splitOnDot_sum s
      refine ⟨fun x hx => hall x hx, ?_, ?_⟩
      · rw [serializeBytes_length]
        simp only [sum_map_length_succ]
        omega
      · rw [serializeBytes_length]
        simp only [sum_map_length_succ]
        omega
  · intro v hviol
    cases h : Qname.tryFromVec v with
    | error e => exact ⟨e, rfl⟩
    | ok q =>
      obtain ⟨hinner, hall, hsum⟩ := (tryFromVec_ok_iff v q).mp h
      rcases hviol with ⟨x, hx, hxlen⟩ | hbig
      · exact absurd (hall x hx) (by omega)
      · omega
  · intro s hviol
    cases h : Qname.tryFromStr s with
    | error e => exact ⟨e, rfl⟩
    | ok q =>
      unfold Qname.tryFromStr at h
      cases hs : Qname.splitStrings s with
      | error e => rw [hs] at h; cases h
      | ok l =>
        obtain ⟨hlen, hl, hall⟩ := (splitStrings_ok_iff s l).mp hs
        rcases hviol with ⟨x, hx, hxlen⟩ | hbig
        · exact absurd (hall x hx) (by omega)
        · omega

set_option maxRecDepth 10000 in
/-- C6: counterexample.  The vector constructor accepts the singleton
list with one empty label, contradicting the claim that every
accepted label is non-empty; and the dotted-string constructor
accepts the 255-byte name longName whose serialized form is 257 bytes
long, contradicting the claimed 255-byte bound on the serialized
size. -/
theorem c6_counterexample :
    Qname.tryFromVec [[]] = Except.ok ⟨[[]]⟩ ∧
    ([] : List Nat).length = 0 ∧
    Qname.tryFromStr longName = Except.ok longQ ∧
    longName.length = 255 ∧
    longQ.serializeBytes.length = 257 := by
  refine ⟨by decide, rfl, ?_, by decide, by decide⟩
  decide

/-- C6 witness: the invariants applied to the accepted one-label name
"a", and the rejection applied to a 63-byte label. -/
theorem c6_witness :
    ((∀ x ∈ (Qname.mk [[97]]).inner, x.length < MAX_LABEL_LEN) ∧
      (Qname.mk [[97]]).serializeBytes.length ≤ MAX_QNAME_LEN) ∧
    (∃ e, Qname.tryFromVec [List.replicate 63 97] = Except.error e) := by
  constructor
  · exact c6_constructor_invariants.1 [[97]] ⟨[[97]]⟩ (by decide)
  · exact c6_constructor_invariants.2.2.1 [List.replicate 63 97]
      (Or.inl ⟨List.replicate 63 97, by decide, by decide⟩)

/-- C10 (amended): every Qname accepted by the vector-of-labels
constructor (the constructor `read_qname` itself uses) serializes into
at most MAX_QNAME_LEN bytes, so the scratch-buffer write inside
`serialized_size` succeeds and the unwrap cannot panic for such
values; the panic is reachable only through the dotted-string
constructors, which admit serialized sizes up to MAX_QNAME_LEN + 2. -/
theorem c10_vec_constructed_size_ok (v : List (List Nat)) (q : Qname)
    (h : Qname.tryFromVec v = Except.ok q) :
    q.serializedSize? = some q.serializeBytes.length := by
  obtain ⟨hinner, hall, hsum⟩ := (tryFromVec_ok_iff v q).mp h
  have hle : q.serializeBytes.length ≤ MAX_QNAME_LEN := by
    rw [serializeBytes_length, hinner]
    omega
  simp [Qname.serializedSize?, hle]

set_option maxRecDepth 10000 in
/-- C10: counterexample.  The dotted-string constructor accepts
longName, but the resulting Qname serializes to 257 bytes, the write
into the 255-byte scratch buffer fails, and the unwrap inside
`serialized_size` panics (modelled as `none`). -/
theorem c10_counterexample :
    Qname.tryFromStr longName = Except.ok longQ ∧
    longQ.serializedSize? = none := by
  constructor
  · decide
  · decide

/-- C10 witness: the no-panic law applied to the accepted one-label
name "a". -/
theorem c10_witness :
    (Qname.mk [[97]]).serializedSize? =
      some (Qname.mk [[97]]).serializeBytes.length :=
  c10_vec_constructed_size_ok [[97]] ⟨[[97]]⟩ (by decide)


/-! ### Pointer-jump limit (C3) -/

/-- Along any terminating limit-free run, the jump counter only
grows: the final recorded jump count is at least the starting one. -/
theorem freeLoop_jumps_mono (buf : List Nat) :
    ∀ gas pos j c acc r, freeLoop buf gas pos j c acc = some r →
      j ≤ (match r with
           | Except.ok (_, _, jj) => jj
           | Except.error (_, jerr) => jerr) := by
  intro gas
  induction gas with
  | zero =>
    intro pos j c acc r h
    simp [freeLoop] at h
  | succ gas ih =>
    intro pos j c acc r h
    rw [freeLoop] at h
    cases hp : peekU8 buf pos with
    | error e =>
      simp only [hp] at h
      cases h
      simp
    | ok len =>
      simp only [hp] at h
      by_cases hptr : len &&& 192 = 192
      · rw [if_pos hptr] at h
        cases hp2 : peekU8 buf (pos + 1) with
        | error e =>
          simp only [hp2] at h
          cases h
          simp
        | ok b2 =>
          simp only [hp2] at h
          have := ih _ _ _ _ _ h
          omega
      · rw [if_neg hptr] at h
        by_cases hz : len = 0
        · rw [if_pos hz] at h
          cases h
          simp
        · rw [if_neg hz] at h
          cases hr : peekRange buf (pos + 1) len with
          | error e =>
            simp only [hr] at h
            cases h
            simp
          | ok bs =>
            simp only [hr] at h
            exact ih _ _ _ _ _ h

theorem freeLoop_sim (buf : List Nat) :
    ∀ gas pos j c acc r, freeLoop buf gas pos j c acc = some r →
      readQnameLoop buf pos j c acc =
        (match r with
         | Except.ok (cc, ll, jj) =>
           if jj > MAX_JUMPS then Except.error ParseErr.JumpLimitExceeded
           else Except.ok (cc, ll, jj)
         | Except.error (e, jerr) =>
           if jerr > MAX_JUMPS then Except.error ParseErr.JumpLimitExceeded
           else Except.error e) := by
  intro gas
  induction gas with
  | zero =>
    intro pos j c acc r h
    simp [freeLoop] at h
  | succ gas ih =>
    intro pos j c acc r h
    have hmono := freeLoop_jumps_mono buf (gas + 1) pos j c acc r h
    rw [freeLoop] at h
    by_cases hj : j > MAX_JUMPS
    · rw [readQnameLoop, if_pos hj]
      cases r with
      | ok t =>
        obtain ⟨cc, ll, jj⟩ := t
        have hj2 : j ≤ jj := by simpa using hmono
        have hgt : jj > MAX_JUMPS := by omega
        simp [hgt]
      | error t =>
        obtain ⟨e, jerr⟩ := t
        have hj2 : j ≤ jerr := by simpa using hmono
        have hgt : jerr > MAX_JUMPS := by omega
        simp [hgt]
    · rw [readQnameLoop, if_neg hj]
      cases hp : peekU8 buf pos with
      | error e =>
        simp only [hp] at h ⊢
        cases h
        simp [hj]
      | ok len =>
        simp only [hp] at h ⊢
        by_cases hptr : len &&& 192 = 192
        · rw [if_pos hptr] at h ⊢
          cases hp2 : peekU8 buf (pos + 1) with
          | error e =>
            simp only [hp2] at h ⊢
            cases h
            simp [hj]
          | ok b2 =>
            simp only [hp2] at h ⊢
            exact ih _ _ _ _ _ h
        · rw [if_neg hptr] at h ⊢
          by_cases hz : len = 0
          · rw [if_pos hz] at h ⊢
            cases h
            simp [hj]
          · rw [if_neg hz] at h ⊢
            cases hr : peekRange buf (pos + 1) len with
            | error e =>
              simp only [hr] at h ⊢
              cases h
              simp [hj]
            | ok bs =>
              simp only [hr] at h ⊢
              exact ih _ _ _ _ _ h

theorem freeLoop_none_jumpLimit (buf : List Nat) (pos j c : Nat)
    (acc : List (List Nat))
    (hnone : ∀ gas, freeLoop buf gas pos j c acc = none) :
    readQnameLoop buf pos j c acc = Except.error ParseErr.JumpLimitExceeded := by
  induction pos, j, c, acc using readQnameLoop.induct buf with
  | case1 pos j c acc hj =>
    rw [readQnameLoop, if_pos hj]
  | case2 pos j c acc hj e hp =>
    have h1 := hnone 1
    simp [freeLoop, hp] at h1
  | case3 pos j c acc hj len hp hptr e hp2 =>
    have h1 := hnone 1
    simp [freeLoop, hp, hptr, hp2] at h1
  | case4 pos j c acc hj len hp hptr b2 hp2 offset ih =>
    rw [readQnameLoop, if_neg hj]
    split
    · rename_i e h1
      rw [hp] at h1
      cases h1
    · rename_i len2 h1
      rw [hp] at h1
      injection h1 with h1
      subst h1
      rw [if_pos hptr]
      simp only [hp2]
      apply ih
      intro gas
      have hg := hnone (gas + 1)
      rw [freeLoop] at hg
      simp only [hp, if_pos hptr, hp2] at hg
      exact hg
  | case5 pos j c acc hj hp hptr =>
    have h1 := hnone 1
    simp [freeLoop, hp, hptr] at h1
  | case6 pos j c acc hj len hp hptr hz e hr =>
    have h1 := hnone 1
    simp [freeLoop, hp, hptr, hz, hr] at h1
  | case7 pos j c acc hj len hp hptr hz bs hr ih =>
    rw [readQnameLoop, if_neg hj]
    split
    · rename_i e h1
      rw [hp] at h1
      cases h1
    · rename_i len2 h1
      rw [hp] at h1
      injection h1 with h1
      subst h1
      rw [if_neg hptr, if_neg hz]
      simp only [hr]
      apply ih
      intro gas
      have hg := hnone (gas + 1)
      rw [freeLoop] at hg
      simp only [hp, if_neg hptr, if_neg hz, hr] at hg
      exact hg

/-- C3: the jump limit.  If the limit-free run of the decompression
loop never terminates (a cyclic pointer chain), `read_qname` returns
the JumpLimitExceeded error (and, being a total function, it always
terminates); if the limit-free run would terminate but needs more than
MAX_JUMPS = 5 pointer follows, `read_qname` returns JumpLimitExceeded;
and a name whose limit-free run needs at most 5 pointer follows is
never rejected by the limit: `read_qname` proceeds to build the Qname
from the collected labels. -/
theorem c3_jump_limit :
    (∀ buf pos, (∀ gas, freeLoop buf gas pos 0 0 [] = none) →
      readQname buf pos = Except.error ParseErr.JumpLimitExceeded) ∧
    (∀ buf pos gas cc ll jj,
      freeLoop buf gas pos 0 0 [] = some (Except.ok (cc, ll, jj)) →
      jj > MAX_JUMPS →
      readQname buf pos = Except.error ParseErr.JumpLimitExceeded) ∧
    (∀ buf pos gas cc ll jj,
      freeLoop buf gas pos 0 0 [] = some (Except.ok (cc, ll, jj)) →
      jj ≤ MAX_JUMPS →
      readQname buf pos =
        (match Qname.tryFromVec ll with
         | Except.error e => Except.error (ParseErr.Qname e)
         | Except.ok q => Except.ok (cc, q))) := by
  refine ⟨?_, ?_, ?_⟩
  · intro buf pos h
    rw [readQname, freeLoop_none_jumpLimit buf pos 0 0 [] h]
  · intro buf pos gas cc ll jj h hgt
    have hsim := freeLoop_sim buf gas pos 0 0 [] _ h
    rw [readQname, hsim]
    simp [hgt]
  · intro buf pos gas cc ll jj h hle
    have hsim := freeLoop_sim buf gas pos 0 0 [] _ h
    rw [readQname, hsim]
    simp [show ¬jj > MAX_JUMPS by omega]

/-- C3 witness: the buffer `[0xC0, 0]` whose first pointer jumps to
itself is rejected with JumpLimitExceeded, and the pointer-free name
"a" (needing 0 follows) is read successfully. -/
theorem c3_witness :
    readQname [192, 0] 0 = Except.error ParseErr.JumpLimitExceeded ∧
    readQname [1, 97, 0] 0 = Except.ok (3, ⟨[[97]]⟩) := by
  constructor
  · have key : ∀ gas j c, freeLoop [192, 0] gas 0 j c [] = none := by
      intro gas
      induction gas with
      | zero => intro j c; rfl
      | succ gas ih =>
        intro j c
        rw [freeLoop]
        have h192 : peekU8 [192, 0] 0 = Except.ok 192 := rfl
        have h0 : peekU8 [192, 0] 1 = Except.ok 0 := rfl
        simp only [h192, h0]
        rw [if_pos (by decide)]
        exact ih (j + 1) (if j = 0 then c + 1 else c)
    exact c3_jump_limit.1 [192, 0] 0 (fun gas => key gas 0 0)
  · have hfree : freeLoop [1, 97, 0] 3 0 0 0 [] =
        some (Except.ok (3, [[97]], 0)) := by decide
    have := c3_jump_limit.2.2 [1, 97, 0] 0 3 3 [[97]] 0 hfree (by decide)
    rw [this]
    decide

/-! ### Uncompressed round-trip (C4) -/

/-- Serializing a cons of labels prepends the length octet and the
label bytes. -/
theorem serializeBytes_cons (l : List Nat) (ls : List (List Nat)) :
    Qname.serializeBytes ⟨l :: ls⟩ =
      (l.length % 256) :: (l ++ Qname.serializeBytes ⟨ls⟩) := by
  simp [Qname.serializeBytes, List.flatMap_cons, List.append_assoc]

/-- Serializing the empty label list emits just the zero octet. -/
theorem serializeBytes_nil : Qname.serializeBytes ⟨[]⟩ = [0] := rfl

/-- A serialized qname is never empty (it ends with the zero
octet). -/
theorem serializeBytes_ne_nil (q : Qname) : q.serializeBytes ≠ [] := by
  simp [Qname.serializeBytes]

/-- Reading the byte right after a known prefix. -/
theorem peekU8_at_append (P : List Nat) (x : Nat) (R : List Nat) :
    peekU8 (P ++ x :: R) P.length = Except.ok x := by
  have hlt : P.length < (P ++ x :: R).length := by
    simp
  rw [peekU8, if_neg (by omega)]
  congr 1
  rw [List.getD_eq_getElem?_getD, List.getElem?_append_right (Nat.le_refl _)]
  simp

/-- Reading a slice right after a known prefix, provided at least one
byte follows it. -/
theorem peekRange_at_append (P l R : List Nat) (hR : R ≠ []) :
    peekRange (P ++ (l ++ R)) P.length l.length = Except.ok l := by
  have hRlen : 0 < R.length := List.length_pos.mpr hR
  have hlen : P.length + l.length < (P ++ (l ++ R)).length := by
    simp; omega
  rw [peekRange, if_neg (by omega)]
  congr 1
  rw [List.drop_append_of_le_length (Nat.le_refl _)]
  simp [List.take_append_of_le_length (Nat.le_refl l.length)]

/-- A byte below 64 has neither of the two pointer-tag bits, so the
mask 0xC0 clears it. -/
theorem and192_of_lt64 (n : Nat) (h : n < 64) : n &&& 192 = 0 := by
  have : ∀ m : Fin 64, m.val &&& 192 = 0 := by decide
  exact this ⟨n, h⟩

/-- Running the decompression loop at the start of an uncompressed
encoding of nonempty, short labels consumes exactly the encoding and
collects the lowercased labels, with no pointer follow. -/
theorem readQnameLoop_encodes (ls : List (List Nat)) :
    ∀ P S c acc,
      (∀ l ∈ ls, l.length < MAX_LABEL_LEN) →
      (∀ l ∈ ls, l ≠ []) →
      readQnameLoop (P ++ Qname.serializeBytes ⟨ls⟩ ++ S) P.length 0 c acc =
        Except.ok (c + (Qname.serializeBytes ⟨ls⟩).length,
          acc ++ ls.map lowerBytes, 0) := by
  induction ls with
  | nil =>
    intro P S c acc hlen hne
    rw [serializeBytes_nil]
    have hp : peekU8 (P ++ [0] ++ S) P.length = Except.ok 0 := by
      rw [List.append_assoc]
      exact peekU8_at_append P 0 S
    rw [readQnameLoop, if_neg (by decide)]
    split
    · rename_i e h1
      rw [hp] at h1
      cases h1
    · rename_i len h1
      rw [hp] at h1
      injection h1 with h1
      subst h1
      rw [if_neg (by decide), if_pos rfl]
      simp
  | cons l ls ih =>
    intro P S c acc hlen hne
    have hl63 : l.length < MAX_LABEL_LEN :=
      hlen l (List.mem_cons_self l ls)
    have hlne : l ≠ [] := hne l (List.mem_cons_self l ls)
    have hlz : l.length ≠ 0 := fun h => hlne (List.length_eq_zero.mp h)
    have hlmod : l.length % 256 = l.length :=
      Nat.mod_eq_of_lt (by unfold MAX_LABEL_LEN at hl63; omega)
    have hand : ¬l.length &&& 192 = 192 := by
      rw [and192_of_lt64 l.length (by unfold MAX_LABEL_LEN at hl63; omega)]
      decide
    rw [serializeBytes_cons, hlmod]
    have hbuf : P ++ (l.length :: (l ++ Qname.serializeBytes ⟨ls⟩)) ++ S =
        P ++ l.length :: (l ++ (Qname.serializeBytes ⟨ls⟩ ++ S)) := by
      simp [List.append_assoc]
    rw [hbuf]
    have hp : peekU8 (P ++ l.length :: (l ++ (Qname.serializeBytes ⟨ls⟩ ++ S)))
        P.length = Except.ok l.length :=
      peekU8_at_append P l.length (l ++ (Qname.serializeBytes ⟨ls⟩ ++ S))
    rw [readQnameLoop, if_neg (by decide)]
    split
    · rename_i e h1
      rw [hp] at h1
      cases h1
    · rename_i len h1
      rw [hp] at h1
      injection h1 with h1
      subst h1
      rw [if_neg hand, if_neg hlz]
      have hr : peekRange (P ++ l.length ::
            (l ++ (Qname.serializeBytes ⟨ls⟩ ++ S)))
          (P.length + 1) l.length = Except.ok l := by
        have : P ++ l.length :: (l ++ (Qname.serializeBytes ⟨ls⟩ ++ S)) =
            (P ++ [l.length]) ++ (l ++ (Qname.serializeBytes ⟨ls⟩ ++ S)) := by
          simp
        rw [this, show P.length + 1 = (P ++ [l.length]).length by simp]
        exact peekRange_at_append (P ++ [l.length]) l
          (Qname.serializeBytes ⟨ls⟩ ++ S)
          (by simp [serializeBytes_ne_nil])
      simp only [hr]
      have harr : P ++ l.length :: (l ++ (Qname.serializeBytes ⟨ls⟩ ++ S)) =
          (P ++ l.length :: l) ++ Qname.serializeBytes ⟨ls⟩ ++ S := by
        simp [List.append_assoc]
      have hpos : P.length + 1 + l.length = (P ++ l.length :: l).length := by
        simp
        omega
      rw [harr, hpos]
      simp only [if_true]
      rw [ih (P ++ l.length :: l) S (c + l.length + 1) (acc ++ [lowerBytes l])
        (fun x hx => hlen x (List.mem_cons_of_mem l hx))
        (fun x hx => hne x (List.mem_cons_of_mem l hx))]
      congr 1
      simp only [Prod.mk.injEq, List.length_cons, List.length_append,
        List.map_cons, List.append_assoc, List.singleton_append]
      exact ⟨by omega, trivial⟩

/-- C4 (amended): for every Qname accepted by the vector-of-labels
constructor whose labels are all non-empty and fixed by lowercasing,
parsing its uncompressed serialization from offset 0 succeeds,
consumes exactly the emitted bytes, and returns an equal Qname.  (The
two hypotheses are forced: the constructors accept empty and uppercase
labels, and on those round-tripping fails, as the counterexample
shows.) -/
theorem c4_roundtrip (v : List (List Nat)) (q : Qname)
    (hacc : Qname.tryFromVec v = Except.ok q)
    (hne : ∀ l ∈ q.inner, l ≠ [])
    (hlow : ∀ l ∈ q.inner, lowerBytes l = l) :
    readQname q.serializeBytes 0 = Except.ok (q.serializeBytes.length, q) := by
  obtain ⟨hinner, hall, hsum⟩ := (tryFromVec_ok_iff v q).mp hacc
  have hall2 : ∀ l ∈ q.inner, l.length < MAX_LABEL_LEN :=
    fun l hl => hall l (hinner ▸ hl)
  have henc := readQnameLoop_encodes q.inner [] [] 0 [] hall2 hne
  have hmap : q.inner.map lowerBytes = q.inner := by
    rw [List.map_congr_left hlow]
    exact List.map_id' q.inner
  simp only [List.nil_append, List.append_nil, List.length_nil, Nat.zero_add,
    hmap] at henc
  have htf : Qname.tryFromVec q.inner = Except.ok q := by
    apply (tryFromVec_ok_iff q.inner q).mpr
    refine ⟨rfl, fun x hx => hall x (hinner ▸ hx), ?_⟩
    rw [hinner]
    exact hsum
  rw [readQname]
  have hq : Qname.serializeBytes ⟨q.inner⟩ = q.serializeBytes := rfl
  rw [hq] at henc
  simp only [henc, htf]

/-- C4: counterexample.  The constructor accepts the single label "A"
(byte 65); parsing its serialization yields the lowercased label "a"
(byte 97), a different Qname, so parse after emit is not the identity
on every Qname. -/
theorem c4_counterexample :
    Qname.tryFromVec [[65]] = Except.ok ⟨[[65]]⟩ ∧
    readQname (Qname.serializeBytes ⟨[[65]]⟩) 0 = Except.ok (3, ⟨[[97]]⟩) ∧
    (Qname.mk [[97]]) ≠ ⟨[[65]]⟩ := by
  refine ⟨by decide, ?_, by decide⟩
  simp [readQname, readQnameLoop, peekU8, peekRange, MAX_JUMPS, lowerBytes,
    toLowerByte, Qname.serializeBytes, Qname.tryFromVec, MAX_LABEL_LEN,
    MAX_QNAME_LEN, List.mapM, List.mapM.loop, bind, Except.bind, pure,
    Except.pure, List.sum_cons, List.sum_nil]

/-- C4 witness: the round-trip applied to the lowercase one-label
name "a". -/
theorem c4_witness :
    Qname.tryFromVec [[97]] = Except.ok ⟨[[97]]⟩ ∧
    readQname (Qname.serializeBytes ⟨[[97]]⟩) 0 =
      Except.ok ((Qname.serializeBytes ⟨[[97]]⟩).length, ⟨[[97]]⟩) :=
  ⟨by decide, c4_roundtrip [[97]] ⟨[[97]]⟩ (by decide) (by decide) (by decide)⟩

end DnsSrv
